import Mathlib

set_option maxHeartbeats 1000000

/-!
Verification development for the idle-timeout watcher and the learning-curve
helpers of this repository.

The watcher itself (package `idle`: `Register`, `Unregister`, `RecordActivity`
and the tick loop) is not among the source files — only its test
`TestIdleTimeoutWatcherUseRunnerState` is — so the watcher is modelled from the
specification.  The learning-curve helpers (`getCustomSearchVaryingHPs` and
`summarizedMetricToSeries`) are embedded from the TypeScript sources.
-/

namespace IdleWatcher

/-- Modelled from the spec: the registration configuration (`sproto.IdleTimeoutConfig`,
whose definition is not among the sources): `ServiceID string`,
`TimeoutDuration duration` and `UseRunnerState bool`.  Durations and times are
modelled as integers. -/
structure IdleTimeoutConfig where
  serviceID : String
  timeoutDuration : Int
  useRunnerState : Bool
deriving DecidableEq, Repr

/-- Modelled from the spec: one registry entry per registered service, holding the
configuration fields, the `lastActivity` timestamp (initialized to registration
time), the `action` callback (modelled as an opaque tag), and the `fired` flag.
The watcher implementation is not among the sources. -/
structure ServiceEntry where
  serviceID : String
  timeoutDuration : Int
  useRunnerState : Bool
  lastActivity : Int
  action : Nat
  fired : Bool
deriving DecidableEq, Repr

/-- Modelled from the spec: the configuration errors `Register` rejects at call
time — zero/negative timeout and empty service id. -/
inductive ConfigError where
  | invalidTimeout
  | emptyServiceID
deriving DecidableEq, Repr

/-- The registry: the list of live entries (the spec's concurrent map, modelled
sequentially with at most one live entry per id maintained by the operations). -/
abbrev Registry := List ServiceEntry

/-- Looking an id up in the registry. -/
def lookup (id : String) (s : Registry) : Option ServiceEntry :=
  s.find? (fun e => e.serviceID == id)

/-- The ids held by a registry, used to state the one-live-entry-per-id invariant. -/
def ids (s : Registry) : List String :=
  s.map (fun e => e.serviceID)

/-- Modelled from the spec: `Register(config, action)` rejects a zero/negative
timeout or an empty service id (fail fast), and otherwise inserts or replaces the
entry keyed by `id`, resetting `lastActivity` to now and `fired` to false.  The
watcher implementation is not among the sources. -/
def Register (cfg : IdleTimeoutConfig) (action : Nat) (now : Int) (s : Registry) :
    Except ConfigError Registry :=
  if cfg.timeoutDuration ≤ 0 then .error .invalidTimeout
  else if cfg.serviceID == "" then .error .emptyServiceID
  else .ok ({ serviceID := cfg.serviceID, timeoutDuration := cfg.timeoutDuration,
              useRunnerState := cfg.useRunnerState, lastActivity := now,
              action := action, fired := false } ::
            s.filter (fun e => e.serviceID != cfg.serviceID))

/-- Modelled from the spec: `Unregister(id)` removes the entry for `id` if present
and is a no-op (not an error) if absent.  The watcher implementation is not among
the sources. -/
def Unregister (id : String) (s : Registry) : Registry :=
  s.filter (fun e => e.serviceID != id)

/-- Modelled from the spec: `RecordActivity(id)` sets `lastActivity` to now if the
id is registered and is a no-op otherwise.  The watcher implementation is not
among the sources. -/
def RecordActivity (id : String) (now : Int) (s : Registry) : Registry :=
  s.map (fun e => if e.serviceID == id then { e with lastActivity := now } else e)

/-- One invocation of a registered action by the Action Dispatcher: the tick time,
the entry's id and its action tag. -/
structure Fire where
  time : Int
  serviceID : String
  action : Nat
deriving DecidableEq, Repr

/-- Modelled from the spec: one tick's evaluation of a single entry.  An entry not
yet fired is skipped when `useRunnerState` is set and the Runner-State Oracle
reports the service busy; otherwise, when `now - lastActivity` has reached the
timeout, the entry fires (exactly one dispatch) and is removed.  The watcher
implementation is not among the sources. -/
def tickEntry (busy : String → Bool) (now : Int) (e : ServiceEntry) :
    Option ServiceEntry × List Fire :=
  if e.fired then (some e, [])
  else if e.useRunnerState && busy e.serviceID then (some e, [])
  else if e.timeoutDuration ≤ now - e.lastActivity then
    (none, [{ time := now, serviceID := e.serviceID, action := e.action }])
  else (some e, [])

/-- Modelled from the spec: one pass of the Tick Scheduler over the registry,
returning the surviving registry and the dispatched actions.  The watcher
implementation is not among the sources. -/
def tick (busy : String → Bool) (now : Int) : Registry → Registry × List Fire
  | [] => ([], [])
  | e :: rest =>
    let head := tickEntry busy now e
    let tail := tick busy now rest
    match head.1 with
    | some e1 => (e1 :: tail.1, head.2 ++ tail.2)
    | none => (tail.1, head.2 ++ tail.2)

/-- The operations a caller (or the scheduler) can perform on the watcher. -/
inductive Event where
  | register (cfg : IdleTimeoutConfig) (action : Nat)
  | unregister (id : String)
  | recordActivity (id : String)
  | tick
deriving Repr

/-- Modelled from the spec: one timestamped operation applied to the registry.
A rejected `Register` leaves the registry untouched; the Runner-State Oracle is
the function `busy`, queried at the tick's time.  The watcher implementation is
not among the sources. -/
def step (busy : Int → String → Bool) (s : Registry) (te : Int × Event) :
    Registry × List Fire :=
  match te.2 with
  | .register cfg a =>
    match Register cfg a te.1 s with
    | .ok s1 => (s1, [])
    | .error _ => (s, [])
  | .unregister id => (Unregister id s, [])
  | .recordActivity id => (RecordActivity id te.1 s, [])
  | .tick => tick (busy te.1) te.1 s

/-- Running a timestamped trace of operations, collecting every dispatched action. -/
def run (busy : Int → String → Bool) (s : Registry) :
    List (Int × Event) → Registry × List Fire
  | [] => (s, [])
  | te :: rest =>
    let r := step busy s te
    let rr := run busy r.1 rest
    (rr.1, r.2 ++ rr.2)

/-- The tick times `t + I, t + 2I, …, t + mI` of a scheduler started at `t` with
tick interval `I`. -/
def ticksFrom (t I : Int) : Nat → List Int
  | 0 => []
  | m + 1 => (t + I) :: ticksFrom (t + I) I m

/-- A trace consisting only of ticks, at the given times. -/
def tickEvents (ts : List Int) : List (Int × Event) :=
  ts.map (fun t => (t, Event.tick))

/-- The first of a list of tick times to reach the deadline `c`. -/
def firstCross (c : Int) : List Int → Option Int
  | [] => none
  | t :: ts => if c ≤ t then some t else firstCross c ts

/-- Traces for C3: an interleaving of ticks (`false`) and `RecordActivity` calls
(`true`) on a single id, as timestamped events. -/
def c3Events (id : String) (evs : List (Int × Bool)) : List (Int × Event) :=
  evs.map (fun p => (p.1, if p.2 then Event.recordActivity id else Event.tick))

/-- Times move forward and every event happens within `D / 2` of the most recent
activity (the registration or the last `RecordActivity` call): the claim's
"a `RecordActivity` call at least every `timeoutDuration / 2`" discipline. -/
def halfGapsOK (D : Int) : Int → List (Int × Bool) → Bool
  | _, [] => true
  | last, (t, b) :: rest =>
    decide (last ≤ t) && decide (t - last ≤ D / 2) &&
      halfGapsOK D (if b then t else last) rest

/-- A trace whose timestamps never decrease, starting no earlier than `t`. -/
def timesMono : Int → List (Int × Event) → Bool
  | _, [] => true
  | t, (u, _) :: rest => decide (t ≤ u) && timesMono u rest

end IdleWatcher

namespace LearningCurve

/-- A JavaScript value as it appears among a trial's hyperparameters in
`LearningCurve.tsx`: primitives, arrays, and (possibly nested) dictionaries. -/
inductive JsValue where
  | num (n : Int)
  | str (s : String)
  | bool (b : Bool)
  | null
  | arr (elems : List JsValue)
  | dict (fields : List (String × JsValue))

mutual

/-- Lodash `_.isEqual` (not among the sources): structural deep equality. -/
def JsValue.eqv : JsValue → JsValue → Bool
  | .num a, .num b => a == b
  | .str a, .str b => a == b
  | .bool a, .bool b => a == b
  | .null, .null => true
  | .arr a, .arr b => eqvList a b
  | .dict a, .dict b => eqvFields a b
  | _, _ => false

/-- Deep equality of arrays, element by element. -/
def eqvList : List JsValue → List JsValue → Bool
  | [], [] => true
  | a :: as, b :: bs => JsValue.eqv a b && eqvList as bs
  | _, _ => false

/-- Deep equality of dictionaries, field by field. -/
def eqvFields : List (String × JsValue) → List (String × JsValue) → Bool
  | [], [] => true
  | (k, a) :: as, (l, b) :: bs => k == l && JsValue.eqv a b && eqvFields as bs
  | _, _ => false

end

/-- Modelled from the spec: `isPrimitive` of `utils/data` is not among the
sources; a hyperparameter value is primitive exactly when it is not an object
(neither an array nor a dictionary). -/
def isPrimitive : JsValue → Bool
  | .num _ => true
  | .str _ => true
  | .bool _ => true
  | .null => true
  | .arr _ => false
  | .dict _ => false

/-- `Array.isArray`. -/
def isArray : JsValue → Bool
  | .arr _ => true
  | _ => false

/-- Modelled from the spec: `TrialHParams` of `HpTrialTable` is not among the
sources; one table row: the trial's id, its (flattened) hyperparameter record
and its latest metric value. -/
structure TrialHParams where
  id : Nat
  hparams : List (String × JsValue)
  metric : Option Int

/-- The `HyperparameterType` enum of `types`. -/
inductive HyperparameterType where
  | categorical
  | constant
  | double
  | int
  | log
deriving DecidableEq, Repr

/-- The `Hyperparameter` record as constructed by `getCustomSearchVaryingHPs`
(only its `type` field is ever set there). -/
structure Hyperparameter where
  type : HyperparameterType
deriving DecidableEq, Repr

/-- JavaScript record lookup (`r[k]`), as an option. -/
def recGet {α : Type} (r : List (String × α)) (k : String) : Option α :=
  (r.find? (fun kv => kv.1 == k)).map (fun kv => kv.2)

/-- JavaScript record assignment (`r[k] = v`): replaces in place, or appends. -/
def recSet {α : Type} : List (String × α) → String → α → List (String × α)
  | [], k, v => [(k, v)]
  | kv :: rest, k, v => if kv.1 == k then (k, v) :: rest else kv :: recSet rest k v

/-- The body of the `forEach` over one trial's hyperparameter keys in
`getCustomSearchVaryingHPs`: values that are neither primitive nor an array are
skipped; the first kept occurrence of a key is recorded in `check_dict`; a later
kept occurrence that is not deep-equal to the recorded one adds the key to
`uniq`. -/
def checkHP (st : List (String × JsValue) × List String) (kv : String × JsValue) :
    List (String × JsValue) × List String :=
  if !(isPrimitive kv.2 || isArray kv.2) then st
  else
    match recGet st.1 kv.1 with
    | none => (st.1 ++ [kv], st.2)
    | some v0 =>
      if JsValue.eqv v0 kv.2 then st
      else (st.1, if st.2.contains kv.1 then st.2 else st.2 ++ [kv.1])

/-- `getCustomSearchVaryingHPs` of `LearningCurve.tsx`: for Custom Searchers,
the hyperparameter columns to show — keys with more than one unique value
across trials (all keys when there is a single trial), each mapped to a
`Constant`-typed hyperparameter. -/
def getCustomSearchVaryingHPs (trialHps : List TrialHParams) :
    List (String × Hyperparameter) :=
  let scanned := trialHps.foldl (fun st d => d.hparams.foldl checkHP st) ([], [])
  let all_keys :=
    if trialHps.length == 1 then scanned.1.map (fun kv => kv.1) else scanned.2
  all_keys.map (fun k => (k, { type := HyperparameterType.constant }))

/-- The kept (primitive-or-array) values of `key` among one record's pairs, in
order. -/
def passVals (key : String) (kvs : List (String × JsValue)) : List JsValue :=
  (kvs.filter (fun kv => kv.1 == key && (isPrimitive kv.2 || isArray kv.2))).map
    (fun kv => kv.2)

/-- The kept (primitive-or-array) occurrences of `key` across the trials, in
scan order; used to state what `getCustomSearchVaryingHPs` collects. -/
def occs (key : String) : List TrialHParams → List JsValue
  | [] => []
  | d :: ds => passVals key d.hparams ++ occs key ds

/-- The first of two options (JavaScript `a ?? b` on the record reads). -/
def orO {α : Type} : Option α → Option α → Option α
  | some v, _ => some v
  | none, b => b

/-- Whether, tracking the first value seen (`check_dict[key]`), some later value
differs from it under deep equality: the condition under which
`getCustomSearchVaryingHPs` marks a key as varying. -/
def hasDiff : Option JsValue → List JsValue → Bool
  | _, [] => false
  | none, v :: vs => hasDiff (some v) vs
  | some v0, v :: vs => !(JsValue.eqv v0 v) || hasDiff (some v0) vs

/-- A JavaScript metric value as read from `avgMetrics.values[metric.name]`:
a number, NaN, null, a string, a boolean — or `undefined` when the key is
absent. -/
inductive JsMetricValue where
  | undefined
  | null
  | nan
  | num (x : Int)
  | str (s : String)
  | bool (b : Bool)
deriving DecidableEq, Repr

/-- JavaScript truthiness of a metric value (`if (value)`): zero, NaN, null,
undefined, the empty string and `false` are falsy. -/
def truthy : JsMetricValue → Bool
  | .num x => x != 0
  | .str s => s != ""
  | .bool b => b
  | _ => false

/-- The guard `value || value === 0` of `summarizedMetricToSeries`. -/
def keepVal (value : JsMetricValue) : Bool :=
  truthy value || value == JsMetricValue.num 0

/-- JavaScript record read (`r[k]`) over metric values: `undefined` when the key
is absent. -/
def jsGet (r : List (String × JsMetricValue)) (k : String) : JsMetricValue :=
  match r.find? (fun kv => kv.1 == k) with
  | some kv => kv.2
  | none => .undefined

/-- One `V1DataPoint` (`avgMetrics`): batches, an optional time stamp, an
optional epoch, and the per-metric-name values. -/
structure DataPoint where
  batches : Int
  time : Option String
  epoch : Option Int
  values : List (String × JsMetricValue)
deriving DecidableEq, Repr

/-- One `MetricContainer` (`summMetric`): a metric group and its datapoints. -/
structure MetricContainer where
  group : String
  data : List DataPoint
deriving DecidableEq, Repr

/-- A `Metric`: group and name. -/
structure Metric where
  group : String
  name : String
deriving DecidableEq, Repr

/-- Modelled from the spec: `metricToKey` of `utils/metric` is not among the
sources; modelled as an encoding of the metric's group and name. -/
def metricToKey (m : Metric) : String :=
  m.group ++ "|" ++ m.name

/-- The `MetricType.Training` enum value. -/
def MetricTypeTraining : String := "training"

/-- The `MetricType.Validation` enum value. -/
def MetricTypeValidation : String := "validation"

/-- The training series color constant of `hew/LineChart` (not among the
sources; only which color is picked matters). -/
def TRAINING_SERIES_COLOR : String := "train-color"

/-- The validation series color constant of `hew/LineChart` (not among the
sources). -/
def VALIDATION_SERIES_COLOR : String := "val-color"

/-- A chart point `[x, value]`. -/
abbrev Pt := Int × JsMetricValue

/-- The three raw per-key maps built by `summarizedMetricToSeries`. -/
structure RawMaps where
  values : List (String × List Pt)
  times : List (String × List Pt)
  epochs : List (String × List Pt)
deriving DecidableEq, Repr

/-- The initialization `if (!map[key]) map[key] = []` of one raw map. -/
def ensureKey (r : List (String × List Pt)) (k : String) : List (String × List Pt) :=
  if (recGet r k).isNone then recSet r k [] else r

/-- The push `map[key]?.push(pt)` onto one raw map's entry. -/
def pushKey (r : List (String × List Pt)) (k : String) (pt : Pt) :
    List (String × List Pt) :=
  recSet r k ((recGet r k).getD [] ++ [pt])

/-- The body of the inner `selectedMetrics.forEach` of `summarizedMetricToSeries`
for one container group, one datapoint and one metric: a group mismatch skips;
otherwise the three maps are initialized for the metric's key, and a kept value
(`value || value === 0`) pushes its points — the time point only under a
(truthy) `time` field, the epoch point only when `epoch` is defined.  The
conversion `new Date(t).getTime() / 1000` is the parameter `dateToSec`. -/
def processMetric (dateToSec : String → Int) (group : String) (avgMetrics : DataPoint)
    (maps : RawMaps) (metric : Metric) : RawMaps :=
  if group != metric.group then maps
  else
    let metricKey := metricToKey metric
    let value := jsGet avgMetrics.values metric.name
    let m3 : RawMaps :=
      { values := ensureKey maps.values metricKey,
        times := ensureKey maps.times metricKey,
        epochs := ensureKey maps.epochs metricKey }
    if keepVal value then
      let m4 := { m3 with values := pushKey m3.values metricKey (avgMetrics.batches, value) }
      let m5 := match avgMetrics.time with
        | some t =>
          if t != "" then
            { m4 with times := pushKey m4.times metricKey (dateToSec t, value) }
          else m4
        | none => m4
      match avgMetrics.epoch with
      | some ep => { m5 with epochs := pushKey m5.epochs metricKey (ep, value) }
      | none => m5
    else m3

/-- A `Serie` as built by `summarizedMetricToSeries`: per-axis data (present
exactly when the corresponding raw map holds the key), a name, and an optional
color. -/
structure Serie where
  dataBatches : Option (List Pt)
  dataTime : Option (List Pt)
  dataEpochs : Option (List Pt)
  name : String
  color : Option String
deriving DecidableEq, Repr

/-- Whether a serie has at least one point on some axis (the `metricHasData`
computation). -/
def serieHasData (s : Serie) : Bool :=
  decide (0 < (s.dataBatches.getD []).length) ||
  decide (0 < (s.dataTime.getD []).length) ||
  decide (0 < (s.dataEpochs.getD []).length)

/-- The result of `summarizedMetricToSeries`. -/
structure SMResult where
  data : List (String × Serie)
  metricHasData : List (String × Bool)
  selectedMetrics : List Metric
deriving DecidableEq, Repr

/-- The triple `forEach` of `summarizedMetricToSeries` that fills the three raw
maps: over the containers, their datapoints, and the selected metrics. -/
def buildRawMaps (dateToSec : String → Int) (allDownsampledMetrics : List MetricContainer)
    (selectedMetrics : List Metric) : RawMaps :=
  allDownsampledMetrics.foldl (fun maps summMetric =>
    summMetric.data.foldl (fun maps avgMetrics =>
      selectedMetrics.foldl
        (fun maps metric => processMetric dateToSec summMetric.group avgMetrics maps metric)
        maps) maps) ⟨[], [], []⟩

/-- The `Serie` built for one selected metric: per-axis data present exactly
when the raw map holds the metric's key, the `group.name` name, and the
validation/training color. -/
def buildSerie (maps : RawMaps) (metric : Metric) : Serie :=
  { dataBatches := recGet maps.values (metricToKey metric),
    dataTime := recGet maps.times (metricToKey metric),
    dataEpochs := recGet maps.epochs (metricToKey metric),
    name := metric.group ++ "." ++ metric.name,
    color :=
      if metric.group == MetricTypeValidation then some VALIDATION_SERIES_COLOR
      else if metric.group == MetricTypeTraining then some TRAINING_SERIES_COLOR
      else none }

/-- `summarizedMetricToSeries` of `useTrialMetrics`: builds the three raw maps
over all containers, datapoints and selected metrics, then one `Serie` per
selected metric (`trialData`) and the `metricHasData` record. -/
def summarizedMetricToSeries (dateToSec : String → Int)
    (allDownsampledMetrics : List MetricContainer) (selectedMetrics : List Metric) :
    SMResult :=
  let maps := buildRawMaps dateToSec allDownsampledMetrics selectedMetrics
  let trialData := selectedMetrics.foldl
    (fun td metric => recSet td (metricToKey metric) (buildSerie maps metric)) []
  let metricHasData := trialData.foldl (fun md p =>
    recSet md p.1 ((recGet md p.1).getD false || serieHasData p.2)) []
  ⟨trialData, metricHasData, selectedMetrics⟩

/-- The datapoints of the containers whose group matches the metric's, in scan
order. -/
def matchingData (containers : List MetricContainer) (m : Metric) : List DataPoint :=
  match containers with
  | [] => []
  | c :: cs => (if c.group == m.group then c.data else []) ++ matchingData cs m

/-- The batch-axis points `summarizedMetricToSeries` keeps for a metric. -/
def collectBatches (containers : List MetricContainer) (m : Metric) : List Pt :=
  (matchingData containers m).filterMap (fun dp =>
    if keepVal (jsGet dp.values m.name) then some (dp.batches, jsGet dp.values m.name)
    else none)

/-- The time-axis points: kept values whose datapoint has a (truthy) time. -/
def collectTimes (dateToSec : String → Int) (containers : List MetricContainer)
    (m : Metric) : List Pt :=
  (matchingData containers m).filterMap (fun dp =>
    match dp.time with
    | some t =>
      if keepVal (jsGet dp.values m.name) && t != "" then
        some (dateToSec t, jsGet dp.values m.name)
      else none
    | none => none)

/-- The epoch-axis points: kept values whose datapoint has a defined epoch. -/
def collectEpochs (containers : List MetricContainer) (m : Metric) : List Pt :=
  (matchingData containers m).filterMap (fun dp =>
    match dp.epoch with
    | some ep =>
      if keepVal (jsGet dp.values m.name) then some (ep, jsGet dp.values m.name)
      else none
    | none => none)

/-- The batch point one datapoint contributes for a metric (empty on a group
mismatch or a dropped value). -/
def deltaB (g : String) (dp : DataPoint) (m : Metric) : List Pt :=
  if g == m.group then
    if keepVal (jsGet dp.values m.name) then [(dp.batches, jsGet dp.values m.name)]
    else []
  else []

/-- The time point one datapoint contributes for a metric. -/
def deltaT (dateToSec : String → Int) (g : String) (dp : DataPoint) (m : Metric) :
    List Pt :=
  if g == m.group then
    if keepVal (jsGet dp.values m.name) then
      match dp.time with
      | some t => if t != "" then [(dateToSec t, jsGet dp.values m.name)] else []
      | none => []
    else []
  else []

/-- The epoch point one datapoint contributes for a metric. -/
def deltaE (g : String) (dp : DataPoint) (m : Metric) : List Pt :=
  if g == m.group then
    if keepVal (jsGet dp.values m.name) then
      match dp.epoch with
      | some ep => [(ep, jsGet dp.values m.name)]
      | none => []
    else []
  else []

/-- The batch points contributed by one container's datapoints. -/
def dpsBatches (g : String) (m : Metric) : List DataPoint → List Pt
  | [] => []
  | dp :: rest => deltaB g dp m ++ dpsBatches g m rest

/-- The time points contributed by one container's datapoints. -/
def dpsTimes (dateToSec : String → Int) (g : String) (m : Metric) :
    List DataPoint → List Pt
  | [] => []
  | dp :: rest => deltaT dateToSec g dp m ++ dpsTimes dateToSec g m rest

/-- The epoch points contributed by one container's datapoints. -/
def dpsEpochs (g : String) (m : Metric) : List DataPoint → List Pt
  | [] => []
  | dp :: rest => deltaE g dp m ++ dpsEpochs g m rest

end LearningCurve

namespace IdleWatcher

theorem run_ticks_empty (busy : Int → String → Bool) (ts : List Int) :
    run busy [] (tickEvents ts) = ([], []) := by
  induction ts with
  | nil => rfl
  | cons t ts ih =>
    simp only [tickEvents, List.map_cons] at ih ⊢
    simp [run, step, tick, ih]

theorem run_single_noRunner (busy : Int → String → Bool) (e : ServiceEntry)
    (hu : e.useRunnerState = false) (hf : e.fired = false) (ts : List Int) :
    run busy [e] (tickEvents ts) =
      match firstCross (e.lastActivity + e.timeoutDuration) ts with
      | some t => ([], [{ time := t, serviceID := e.serviceID, action := e.action }])
      | none => ([e], []) := by
  induction ts with
  | nil => rfl
  | cons t ts ih =>
    simp only [tickEvents, List.map_cons] at ih ⊢
    by_cases h : e.lastActivity + e.timeoutDuration ≤ t
    · have h2 : e.timeoutDuration ≤ t - e.lastActivity := by omega
      have hre := run_ticks_empty busy ts
      simp only [tickEvents] at hre
      simp [run, step, tick, tickEntry, hu, hf, firstCross, h, h2, hre]
    · have h2 : ¬ e.timeoutDuration ≤ t - e.lastActivity := by omega
      simp [run, step, tick, tickEntry, hu, hf, firstCross, h, h2, ih]

theorem firstCross_ticksFrom (c t0 I : Int) (m : Nat)
    (h0 : t0 < c) (hm : c ≤ t0 + (m : Int) * I) :
    ∃ u, firstCross c (ticksFrom t0 I m) = some u ∧ c ≤ u ∧ u < c + I := by
  induction m generalizing t0 with
  | zero => simp at hm; omega
  | succ m ih =>
    by_cases h : c ≤ t0 + I
    · exact ⟨t0 + I, by simp [ticksFrom, firstCross, h], h, by omega⟩
    · have hx : t0 + ((m : Int) + 1) * I = (t0 + I) + (m : Int) * I := by ring
      have hm2 : c ≤ (t0 + I) + (m : Int) * I := by
        push_cast at hm
        rw [hx] at hm
        exact hm
      obtain ⟨u, hu1, hu2, hu3⟩ := ih (t0 + I) (by omega) hm2
      exact ⟨u, by simp [ticksFrom, firstCross, h, hu1], hu2, hu3⟩

/-- C1: for an entry registered with `useRunnerState = false`, if no
`RecordActivity` call occurs and the scheduler ticks every `I` from the
registration time `t0` until the timeout `D` has elapsed, the action fires
exactly once (the trace dispatches exactly one invocation), at a tick time
within one tick interval after the timeout elapses, and the entry is removed
from the registry, so later ticks skip it. -/
theorem C1_action_fires_exactly_once_within_a_tick
    (id : String) (a : Nat) (D I t0 : Int) (m : Nat)
    (busy : Int → String → Bool) (s0 : Registry)
    (hreg : Register { serviceID := id, timeoutDuration := D, useRunnerState := false } a t0 []
      = Except.ok s0)
    (hm : D ≤ (m : Int) * I) :
    ∃ t, run busy s0 (tickEvents (ticksFrom t0 I m)) =
        ([], [{ time := t, serviceID := id, action := a }]) ∧
      t0 + D ≤ t ∧ t < t0 + D + I := by
  unfold Register at hreg
  by_cases hD : D ≤ 0
  · simp [hD] at hreg
  · by_cases hid : (id == "") = true
    · simp [hD, hid] at hreg
    · simp [hD, hid] at hreg
      obtain ⟨u, hu1, hu2, hu3⟩ :=
        firstCross_ticksFrom (t0 + D) t0 I m (by omega) (by omega)
      refine ⟨u, ?_, by omega, by omega⟩
      have hrun := run_single_noRunner busy
        { serviceID := id, timeoutDuration := D, useRunnerState := false,
          lastActivity := t0, action := a, fired := false } rfl rfl (ticksFrom t0 I m)
      rw [← hreg]
      simp only [hrun, hu1]

/-- C2: an entry registered with `useRunnerState = true` whose runner the
Runner-State Oracle reports busy on every tick is never fired and is left
untouched by every tick, regardless of the elapsed time since its last
recorded activity. -/
theorem C2_busy_runner_never_fires
    (e : ServiceEntry) (busy : Int → String → Bool) (ts : List Int)
    (hu : e.useRunnerState = true) (hf : e.fired = false)
    (hb : ∀ t, busy t e.serviceID = true) :
    run busy [e] (tickEvents ts) = ([e], []) := by
  induction ts with
  | nil => rfl
  | cons t ts ih =>
    simp only [tickEvents, List.map_cons] at ih ⊢
    simp [run, step, tick, tickEntry, hu, hf, hb, ih]

/-- Witness for C1 at a concrete input: timeout 5, tick interval 2, three ticks. -/
theorem C1_witness :
    ∃ t, run (fun _ _ => true)
        [{ serviceID := "svc", timeoutDuration := 5, useRunnerState := false,
           lastActivity := 0, action := 0, fired := false }]
        (tickEvents (ticksFrom 0 2 3)) =
        ([], [{ time := t, serviceID := "svc", action := 0 }]) ∧
      (0 : Int) + 5 ≤ t ∧ t < 0 + 5 + 2 :=
  C1_action_fires_exactly_once_within_a_tick "svc" 0 5 2 0 3 (fun _ _ => true)
    [{ serviceID := "svc", timeoutDuration := 5, useRunnerState := false,
       lastActivity := 0, action := 0, fired := false }]
    rfl (by decide)

/-- Witness for C2 at a concrete input: ticks long after the timeout, oracle
always busy. -/
theorem C2_witness :
    run (fun _ _ => true)
        [{ serviceID := "svc", timeoutDuration := 1, useRunnerState := true,
           lastActivity := 0, action := 0, fired := false }]
        (tickEvents [5, 100, 10000]) =
      ([{ serviceID := "svc", timeoutDuration := 1, useRunnerState := true,
          lastActivity := 0, action := 0, fired := false }], []) :=
  C2_busy_runner_never_fires
    { serviceID := "svc", timeoutDuration := 1, useRunnerState := true,
      lastActivity := 0, action := 0, fired := false }
    (fun _ _ => true) [5, 100, 10000] rfl rfl (fun _ => rfl)

theorem lookup_record_self (id : String) (now : Int) (s : Registry) :
    lookup id (RecordActivity id now s) =
      (lookup id s).map (fun e => { e with lastActivity := now }) := by
  unfold RecordActivity lookup
  rw [List.find?_map]
  have hp : ((fun e => e.serviceID == id) ∘
      fun (e : ServiceEntry) => if e.serviceID == id then { e with lastActivity := now } else e)
      = (fun e => e.serviceID == id) := by
    funext e
    by_cases hx : e.serviceID = id <;> simp [hx]
  rw [hp]
  cases hfind : List.find? (fun e => e.serviceID == id) s with
  | none => rfl
  | some e =>
    have he := List.find?_some hfind
    simp [he]
    intro h
    exact absurd (by simpa using he) h

theorem lookup_record_ne (id j : String) (hj : j ≠ id) (now : Int) (s : Registry) :
    lookup id (RecordActivity j now s) = lookup id s := by
  unfold RecordActivity lookup
  rw [List.find?_map]
  have hp : ((fun e => e.serviceID == id) ∘
      fun (e : ServiceEntry) => if e.serviceID == j then { e with lastActivity := now } else e)
      = (fun e => e.serviceID == id) := by
    funext e
    by_cases hx : e.serviceID = j <;> simp [hx]
  rw [hp]
  cases hfind : List.find? (fun e => e.serviceID == id) s with
  | none => rfl
  | some e =>
    have he := List.find?_some hfind
    have he2 : e.serviceID = id := by simpa using he
    simp [he2, Ne.symm hj]

/-- C3: a `RecordActivity` call on a registered id resets the idle clock
(`lastActivity` becomes the call time), and an entry that keeps receiving
activity at least every `timeoutDuration / 2` is never fired, however long the
trace runs: it stays registered with only its `lastActivity` updated. -/
theorem C3_activity_resets_clock_and_prevents_firing (id : String) :
    (∀ (s : Registry) (now : Int) (e : ServiceEntry), lookup id s = some e →
      lookup id (RecordActivity id now s) = some { e with lastActivity := now }) ∧
    (∀ (busy : Int → String → Bool) (evs : List (Int × Bool)) (e : ServiceEntry),
      e.serviceID = id → e.fired = false → 0 < e.timeoutDuration →
      halfGapsOK e.timeoutDuration e.lastActivity evs = true →
      ∃ la, run busy [e] (c3Events id evs) = ([{ e with lastActivity := la }], [])) := by
  constructor
  · intro s now e he
    rw [lookup_record_self, he]
    rfl
  · intro busy evs
    induction evs with
    | nil =>
      intro e _ _ _ _
      exact ⟨e.lastActivity, by simp [run]⟩
    | cons p evs ih =>
      obtain ⟨t, b⟩ := p
      intro e hid hf hD hg
      simp only [halfGapsOK, Bool.and_eq_true, decide_eq_true_eq] at hg
      obtain ⟨⟨h1, h2⟩, h3⟩ := hg
      cases b
      · simp only [if_neg Bool.false_ne_true] at h3
        have hnf : ¬ e.timeoutDuration ≤ t - e.lastActivity := by omega
        obtain ⟨la, hla⟩ := ih e hid hf hD h3
        refine ⟨la, ?_⟩
        simp only [c3Events, List.map_cons] at hla ⊢
        by_cases hb : (e.useRunnerState && busy t e.serviceID) = true
        · simp [run, step, tick, tickEntry, hf, hb, hla]
        · simp [run, step, tick, tickEntry, hf, hb, hnf, hla]
      · simp only [if_pos rfl] at h3
        have hstep : RecordActivity id t [e] = [{ e with lastActivity := t }] := by
          simp [RecordActivity, hid]
        obtain ⟨la, hla⟩ := ih { e with lastActivity := t } hid hf hD h3
        refine ⟨la, ?_⟩
        simp only [c3Events, List.map_cons] at hla ⊢
        simp [run, step, hstep, hla]

/-- Witness for C3 at a concrete id. -/
theorem C3_witness :
    (∀ (s : Registry) (now : Int) (e : ServiceEntry), lookup "svc" s = some e →
      lookup "svc" (RecordActivity "svc" now s) = some { e with lastActivity := now }) ∧
    (∀ (busy : Int → String → Bool) (evs : List (Int × Bool)) (e : ServiceEntry),
      e.serviceID = "svc" → e.fired = false → 0 < e.timeoutDuration →
      halfGapsOK e.timeoutDuration e.lastActivity evs = true →
      ∃ la, run busy [e] (c3Events "svc" evs) = ([{ e with lastActivity := la }], [])) :=
  C3_activity_resets_clock_and_prevents_firing "svc"

theorem tick_snd_cons (busy : String → Bool) (now : Int) (e : ServiceEntry) (s : Registry) :
    (tick busy now (e :: s)).2 = (tickEntry busy now e).2 ++ (tick busy now s).2 := by
  simp only [tick]
  split <;> simp

theorem tickEntry_fires (busy : String → Bool) (now : Int) (e : ServiceEntry) (f : Fire)
    (hf : f ∈ (tickEntry busy now e).2) :
    f.serviceID = e.serviceID ∧ f.action = e.action := by
  unfold tickEntry at hf
  repeat' split at hf
  all_goals simp_all

theorem tick_fires_sourced (busy : String → Bool) (now : Int) (s : Registry) :
    ∀ f ∈ (tick busy now s).2, ∃ e ∈ s, f.serviceID = e.serviceID ∧ f.action = e.action := by
  induction s with
  | nil => intro f hf; simp [tick] at hf
  | cons e s ih =>
    intro f hf
    rw [tick_snd_cons] at hf
    rcases List.mem_append.mp hf with hf | hf
    · exact ⟨e, List.mem_cons_self e s, tickEntry_fires busy now e f hf⟩
    · obtain ⟨x, hx, hfx⟩ := ih f hf
      exact ⟨x, List.mem_cons_of_mem e hx, hfx⟩

/-- C4: `Unregister` is idempotent and benign — removing twice equals removing
once, removing an absent id (for example after the entry fired and was
auto-removed) is a no-op rather than an error, and an `Unregister` step never
dispatches an action. -/
theorem C4_unregister_idempotent_and_benign
    (id : String) (s : Registry) (busy : Int → String → Bool) (t : Int) :
    Unregister id (Unregister id s) = Unregister id s ∧
    ((∀ e ∈ s, e.serviceID ≠ id) → Unregister id s = s) ∧
    step busy s (t, Event.unregister id) = (Unregister id s, []) := by
  refine ⟨?_, ?_, rfl⟩
  · simp [Unregister, List.filter_filter]
  · intro h
    rw [Unregister, List.filter_eq_self]
    intro e he
    simpa using h e he

/-- C5: re-registering a live id replaces the prior entry in place — afterwards
the registry holds exactly one entry for the id, carrying the new timeout,
runner-state flag and action, with `lastActivity` reset to the registration time
and `fired` reset to false; entries of other ids are untouched, and no later
tick can dispatch the prior entry's action for this id. -/
theorem C5_reregistration_replaces_entry
    (id : String) (D : Int) (u : Bool) (a : Nat) (now : Int) (s : Registry)
    (hD : 0 < D) (hid : id ≠ "")
    (_hlive : ∃ e ∈ s, e.serviceID = id) :
    ∃ s1, Register { serviceID := id, timeoutDuration := D, useRunnerState := u } a now s
        = Except.ok s1 ∧
      s1.filter (fun e => e.serviceID == id) =
        [{ serviceID := id, timeoutDuration := D, useRunnerState := u,
           lastActivity := now, action := a, fired := false }] ∧
      s1.filter (fun e => e.serviceID != id) = s.filter (fun e => e.serviceID != id) ∧
      ∀ (busy : String → Bool) (t : Int) (f : Fire),
        f ∈ (tick busy t s1).2 → f.serviceID = id → f.action = a := by
  have hD2 : ¬ D ≤ 0 := by omega
  have hid2 : (id == "") = false := by simpa using hid
  refine ⟨{ serviceID := id, timeoutDuration := D, useRunnerState := u,
            lastActivity := now, action := a, fired := false } ::
          s.filter (fun e => e.serviceID != id), ?_, ?_, ?_, ?_⟩
  · simp [Register, hD2, hid2]
  · simp [List.filter_filter]
  · simp [List.filter_filter]
  · intro busy t f hf hfid
    obtain ⟨e, he, hes, hea⟩ := tick_fires_sourced busy t _ f hf
    rcases List.mem_cons.mp he with he | he
    · rw [hea, he]
    · exfalso
      have := List.of_mem_filter he
      rw [hes] at hfid
      simp [hfid] at this

/-- Witness for C5 at a concrete input: a live entry for `"svc"` is replaced. -/
theorem C5_witness :
    ∃ s1, Register { serviceID := "svc", timeoutDuration := 3, useRunnerState := false } 1 10
        [{ serviceID := "svc", timeoutDuration := 5, useRunnerState := true,
           lastActivity := 0, action := 0, fired := false }]
        = Except.ok s1 ∧
      s1.filter (fun e => e.serviceID == "svc") =
        [{ serviceID := "svc", timeoutDuration := 3, useRunnerState := false,
           lastActivity := 10, action := 1, fired := false }] ∧
      s1.filter (fun e => e.serviceID != "svc") =
        (([{ serviceID := "svc", timeoutDuration := 5, useRunnerState := true,
             lastActivity := 0, action := 0, fired := false }] : Registry).filter
          (fun e => e.serviceID != "svc")) ∧
      ∀ (busy : String → Bool) (t : Int) (f : Fire),
        f ∈ (tick busy t s1).2 → f.serviceID = "svc" → f.action = 1 :=
  C5_reregistration_replaces_entry "svc" 3 false 1 10
    [{ serviceID := "svc", timeoutDuration := 5, useRunnerState := true,
       lastActivity := 0, action := 0, fired := false }]
    (by decide) (by decide) (by decide)

/-- C6: a configuration with a zero or negative `timeoutDuration` or an empty
service id is rejected by `Register` at call time, and the rejected call leaves
the registry exactly as it was: no entry is silently inserted. -/
theorem C6_invalid_config_rejected
    (id : String) (D : Int) (u : Bool) (a : Nat) (now : Int) (s : Registry)
    (h : D ≤ 0 ∨ id = "") :
    (∃ err, Register { serviceID := id, timeoutDuration := D, useRunnerState := u } a now s
        = Except.error err) ∧
    ∀ (busy : Int → String → Bool) (t : Int),
      step busy s
        (t, Event.register { serviceID := id, timeoutDuration := D, useRunnerState := u } a)
        = (s, []) := by
  by_cases hD : D ≤ 0
  · exact ⟨⟨.invalidTimeout, by simp [Register, hD]⟩,
      fun busy t => by simp [step, Register, hD]⟩
  · have hid : id = "" := by tauto
    exact ⟨⟨.emptyServiceID, by simp [Register, hD, hid]⟩,
      fun busy t => by simp [step, Register, hD, hid]⟩

/-- Witness for C6 at a concrete input: a zero timeout is rejected. -/
theorem C6_witness :
    (∃ err, Register { serviceID := "svc", timeoutDuration := 0, useRunnerState := false } 0 0
        [] = Except.error err) ∧
    ∀ (busy : Int → String → Bool) (t : Int),
      step busy []
        (t, Event.register { serviceID := "svc", timeoutDuration := 0, useRunnerState := false } 0)
        = ([], []) :=
  C6_invalid_config_rejected "svc" 0 false 0 0 [] (Or.inl (by decide))

theorem lookup_mem (id : String) (s : Registry) (e : ServiceEntry)
    (h : lookup id s = some e) : e ∈ s ∧ e.serviceID = id := by
  refine ⟨List.mem_of_find?_eq_some h, ?_⟩
  simpa using List.find?_some h

theorem lookup_none (id : String) (s : Registry) :
    lookup id s = none ↔ ∀ e ∈ s, e.serviceID ≠ id := by
  unfold lookup
  rw [List.find?_eq_none]
  constructor
  · intro h e he
    simpa using h e he
  · intro h e he
    simpa using h e he

theorem lookup_filter_ne (id j : String) (hj : j ≠ id) (s : Registry) :
    lookup id (s.filter (fun e => e.serviceID != j)) = lookup id s := by
  induction s with
  | nil => rfl
  | cons x s ih =>
    unfold lookup at ih ⊢
    by_cases hx : x.serviceID = j
    · have h1 : (x.serviceID != j) = false := by simp [hx]
      have h2 : (x.serviceID == id) = false := by simp [hx, hj]
      simp [List.filter_cons, h1, List.find?_cons, h2, ih]
    · have h1 : (x.serviceID != j) = true := by simp [hx]
      cases hxi : (x.serviceID == id) <;>
        simp [List.filter_cons, h1, List.find?_cons, hxi, ih]

theorem lookup_unregister_self (id : String) (s : Registry) :
    lookup id (Unregister id s) = none := by
  rw [lookup_none]
  intro e he
  have := List.of_mem_filter he
  simpa using this

theorem register_ok_shape (cfg : IdleTimeoutConfig) (a : Nat) (now : Int)
    (s s1 : Registry) (h : Register cfg a now s = Except.ok s1) :
    s1 = { serviceID := cfg.serviceID, timeoutDuration := cfg.timeoutDuration,
           useRunnerState := cfg.useRunnerState, lastActivity := now,
           action := a, fired := false } ::
         s.filter (fun e => e.serviceID != cfg.serviceID) := by
  unfold Register at h
  by_cases h1 : cfg.timeoutDuration ≤ 0
  · simp [h1] at h
  · by_cases h2 : (cfg.serviceID == "") = true
    · simp [h1, h2] at h
    · simp [h1, h2] at h
      exact h.symm

theorem tickEntry_state (busy : String → Bool) (now : Int) (e : ServiceEntry) :
    (tickEntry busy now e).1 = some e ∨ (tickEntry busy now e).1 = none := by
  unfold tickEntry
  repeat' split
  all_goals simp

theorem tick_sublist (busy : String → Bool) (now : Int) (s : Registry) :
    ((tick busy now s).1).Sublist s := by
  induction s with
  | nil => simp [tick]
  | cons e s ih =>
    simp only [tick]
    rcases tickEntry_state busy now e with he | he <;> rw [he]
    · exact ih.cons₂ e
    · exact ih.cons e

theorem tick_mem (busy : String → Bool) (now : Int) (s : Registry) (x : ServiceEntry)
    (hx : x ∈ (tick busy now s).1) : x ∈ s :=
  (tick_sublist busy now s).mem hx

theorem ids_record (j : String) (now : Int) (s : Registry) :
    ids (RecordActivity j now s) = ids s := by
  unfold ids RecordActivity
  rw [List.map_map]
  apply List.map_congr_left
  intro e _
  by_cases hx : e.serviceID = j <;> simp [hx]

theorem step_bound (busy : Int → String → Bool) (s : Registry) (t0 : Int)
    (te : Int × Event) (hs : ∀ x ∈ s, x.lastActivity ≤ t0) (ht : t0 ≤ te.1) :
    ∀ x ∈ (step busy s te).1, x.lastActivity ≤ te.1 := by
  obtain ⟨u, ev⟩ := te
  intro x hx
  cases ev with
  | register cfg a =>
    simp only [step] at hx
    cases hr : Register cfg a u s with
    | ok s1 =>
      rw [hr] at hx
      rw [register_ok_shape cfg a u s s1 hr] at hx
      rcases List.mem_cons.mp hx with rfl | hx2
      · simp
      · exact le_trans (hs x (List.mem_of_mem_filter hx2)) ht
    | error err =>
      rw [hr] at hx
      exact le_trans (hs x hx) ht
  | unregister j =>
    simp only [step, Unregister] at hx
    exact le_trans (hs x (List.mem_of_mem_filter hx)) ht
  | recordActivity j =>
    simp only [step, RecordActivity] at hx
    obtain ⟨y, hy, hyx⟩ := List.mem_map.mp hx
    by_cases hxj : y.serviceID = j
    · rw [← hyx]
      simp [hxj]
    · rw [← hyx]
      simp only [hxj]
      simp [hxj]
      exact le_trans (hs y hy) ht
  | tick =>
    simp only [step] at hx
    exact le_trans (hs x (tick_mem _ u s x hx)) ht

theorem step_nodup (busy : Int → String → Bool) (s : Registry) (te : Int × Event)
    (hn : (ids s).Nodup) : (ids (step busy s te).1).Nodup := by
  obtain ⟨u, ev⟩ := te
  cases ev with
  | register cfg a =>
    simp only [step]
    cases hr : Register cfg a u s with
    | ok s1 =>
      rw [register_ok_shape cfg a u s s1 hr]
      simp only [ids, List.map_cons]
      rw [List.nodup_cons]
      constructor
      · intro hmem
        obtain ⟨e, he, hee⟩ := List.mem_map.mp hmem
        have := List.of_mem_filter he
        simp [hee] at this
      · exact hn.sublist ((List.filter_sublist s).map _)
    | error err => exact hn
  | unregister j =>
    exact hn.sublist ((List.filter_sublist s).map _)
  | recordActivity j =>
    simpa only [step, ids_record] using hn
  | tick =>
    exact hn.sublist ((tick_sublist _ u s).map _)

theorem lookup_of_mem_nodup (id : String) (s : Registry) (hn : (ids s).Nodup)
    (e : ServiceEntry) (he : e ∈ s) (hid : e.serviceID = id) :
    lookup id s = some e := by
  induction s with
  | nil => cases he
  | cons x s ih =>
    have hn2 : (ids s).Nodup := by
      simp only [ids, List.map_cons, List.nodup_cons] at hn
      exact hn.2
    rcases List.mem_cons.mp he with rfl | he2
    · simp [lookup, List.find?_cons, hid]
    · have hxid : (x.serviceID == id) = false := by
        simp only [ids, List.map_cons, List.nodup_cons] at hn
        have : id ∈ ids s := List.mem_map.mpr ⟨e, he2, hid⟩
        simp only [beq_eq_false_iff_ne]
        intro hcontra
        exact hn.1 (hcontra ▸ this)
      unfold lookup at ih ⊢
      simp only [List.find?_cons, hxid]
      exact ih hn2 he2

theorem lookup_cons_of_ne (id : String) (x : ServiceEntry) (s : Registry)
    (hx : (x.serviceID == id) = false) : lookup id (x :: s) = lookup id s := by
  unfold lookup
  rw [List.find?_cons, hx]

theorem lookup_cons_self (id : String) (x : ServiceEntry) (s : Registry)
    (hx : (x.serviceID == id) = true) : lookup id (x :: s) = some x := by
  unfold lookup
  rw [List.find?_cons, hx]

theorem record_noop (id : String) (now : Int) (s : Registry)
    (h : lookup id s = none) : RecordActivity id now s = s := by
  have h2 : ∀ e ∈ s, (e.serviceID == id) = false := by
    intro e he
    have := (lookup_none id s).mp h e he
    simpa using this
  unfold RecordActivity
  have h3 : ∀ e ∈ s,
      (if e.serviceID == id then { e with lastActivity := now } else e) = e := by
    intro e he
    simp [h2 e he]
  rw [List.map_congr_left h3]
  simp

theorem step_lookup_mono (busy : Int → String → Bool) (s : Registry) (t0 : Int)
    (te : Int × Event) (id : String)
    (hs : ∀ x ∈ s, x.lastActivity ≤ t0) (ht : t0 ≤ te.1) (hn : (ids s).Nodup)
    (e e1 : ServiceEntry)
    (he : lookup id s = some e) (he1 : lookup id (step busy s te).1 = some e1) :
    e.lastActivity ≤ e1.lastActivity := by
  obtain ⟨u, ev⟩ := te
  have hle : e.lastActivity ≤ t0 := hs e (lookup_mem id s e he).1
  cases ev with
  | register cfg a =>
    simp only [step] at he1
    cases hr : Register cfg a u s with
    | ok s1 =>
      rw [hr] at he1
      rw [register_ok_shape cfg a u s s1 hr] at he1
      by_cases hcid : cfg.serviceID = id
      · rw [lookup_cons_self id _ _ (by simp [hcid])] at he1
        cases he1
        show e.lastActivity ≤ u
        omega
      · rw [lookup_cons_of_ne id _ _ (by simpa using hcid)] at he1
        rw [lookup_filter_ne id cfg.serviceID hcid s] at he1
        rw [he] at he1
        cases he1
        omega
    | error err =>
      rw [hr] at he1
      rw [he] at he1
      cases he1
      omega
  | unregister j =>
    simp only [step] at he1
    by_cases hj : j = id
    · rw [hj, lookup_unregister_self] at he1
      cases he1
    · unfold Unregister at he1
      rw [lookup_filter_ne id j hj s, he] at he1
      cases he1
      omega
  | recordActivity j =>
    simp only [step] at he1
    by_cases hj : j = id
    · rw [hj, lookup_record_self, he] at he1
      have he1b : some { e with lastActivity := u } = some e1 := he1
      cases he1b
      show e.lastActivity ≤ u
      omega
    · rw [lookup_record_ne id j hj, he] at he1
      cases he1
      omega
  | tick =>
    simp only [step] at he1
    have hmem := lookup_mem id _ e1 he1
    have he1s : e1 ∈ s := tick_mem _ u s e1 hmem.1
    have := lookup_of_mem_nodup id s hn e1 he1s hmem.2
    rw [he] at this
    cases this
    omega

theorem step_creates (busy : Int → String → Bool) (s : Registry) (te : Int × Event)
    (id : String) (e1 : ServiceEntry)
    (h0 : lookup id s = none) (he1 : lookup id (step busy s te).1 = some e1) :
    e1.lastActivity = te.1 := by
  obtain ⟨u, ev⟩ := te
  cases ev with
  | register cfg a =>
    simp only [step] at he1
    cases hr : Register cfg a u s with
    | ok s1 =>
      rw [hr] at he1
      rw [register_ok_shape cfg a u s s1 hr] at he1
      by_cases hcid : cfg.serviceID = id
      · rw [lookup_cons_self id _ _ (by simp [hcid])] at he1
        cases he1
        rfl
      · rw [lookup_cons_of_ne id _ _ (by simpa using hcid)] at he1
        rw [lookup_filter_ne id cfg.serviceID hcid s, h0] at he1
        cases he1
    | error err =>
      rw [hr] at he1
      rw [h0] at he1
      cases he1
  | unregister j =>
    simp only [step] at he1
    by_cases hj : j = id
    · rw [hj, lookup_unregister_self] at he1
      cases he1
    · unfold Unregister at he1
      rw [lookup_filter_ne id j hj s, h0] at he1
      cases he1
  | recordActivity j =>
    simp only [step] at he1
    by_cases hj : j = id
    · rw [hj, lookup_record_self, h0] at he1
      have he1b : (none : Option ServiceEntry) = some e1 := he1
      cases he1b
    · rw [lookup_record_ne id j hj, h0] at he1
      cases he1
  | tick =>
    simp only [step] at he1
    have hmem := lookup_mem id _ e1 he1
    have he1s : e1 ∈ s := tick_mem _ u s e1 hmem.1
    have := (lookup_none id s).mp h0 e1 he1s
    exact absurd hmem.2 this

theorem run_lookup_mono (busy : Int → String → Bool) (id : String) :
    ∀ (tr : List (Int × Event)) (s : Registry) (t0 : Int),
      (∀ x ∈ s, x.lastActivity ≤ t0) → (ids s).Nodup → timesMono t0 tr = true →
      ∀ e1, lookup id (run busy s tr).1 = some e1 →
        (match lookup id s with
         | some e => e.lastActivity
         | none => t0) ≤ e1.lastActivity := by
  intro tr
  induction tr with
  | nil =>
    intro s t0 hs hn hm e1 he1
    simp only [run] at he1
    rw [he1]
  | cons te tr ih =>
    intro s t0 hs hn hm e1 he1
    obtain ⟨u, ev⟩ := te
    simp only [timesMono, Bool.and_eq_true, decide_eq_true_eq] at hm
    obtain ⟨htu, hm2⟩ := hm
    simp only [run] at he1
    have hs2 : ∀ x ∈ (step busy s (u, ev)).1, x.lastActivity ≤ u :=
      step_bound busy s t0 (u, ev) hs htu
    have hn2 := step_nodup busy s (u, ev) hn
    have key := ih (step busy s (u, ev)).1 u hs2 hn2 hm2 e1 he1
    cases hmid : lookup id (step busy s (u, ev)).1 with
    | some e2 =>
      rw [hmid] at key
      have key2 : e2.lastActivity ≤ e1.lastActivity := key
      cases hstart : lookup id s with
      | some e =>
        have h12 : e.lastActivity ≤ e2.lastActivity :=
          step_lookup_mono busy s t0 (u, ev) id hs htu hn e e2 hstart hmid
        show e.lastActivity ≤ e1.lastActivity
        omega
      | none =>
        have hc : e2.lastActivity = u := step_creates busy s (u, ev) id e2 hstart hmid
        show t0 ≤ e1.lastActivity
        omega
    | none =>
      rw [hmid] at key
      have key2 : u ≤ e1.lastActivity := key
      cases hstart : lookup id s with
      | some e =>
        have := hs e (lookup_mem id s e hstart).1
        show e.lastActivity ≤ e1.lastActivity
        omega
      | none =>
        show t0 ≤ e1.lastActivity
        omega

/-- C7: `lastActivity` never moves backward.  A successful `Register` initializes
the entry at the registration time; `RecordActivity` on an unregistered id
changes nothing; and over any time-monotone trace of operations, an id that is
live at the start and at the end never sees its `lastActivity` decrease. -/
theorem C7_last_activity_monotone :
    (∀ (cfg : IdleTimeoutConfig) (a : Nat) (now : Int) (s s1 : Registry),
      Register cfg a now s = Except.ok s1 →
      ∃ e1, lookup cfg.serviceID s1 = some e1 ∧ e1.lastActivity = now) ∧
    (∀ (id : String) (now : Int) (s : Registry),
      lookup id s = none → RecordActivity id now s = s) ∧
    (∀ (busy : Int → String → Bool) (id : String) (tr : List (Int × Event))
      (s : Registry) (t0 : Int) (e e1 : ServiceEntry),
      (∀ x ∈ s, x.lastActivity ≤ t0) → (ids s).Nodup → timesMono t0 tr = true →
      lookup id s = some e → lookup id (run busy s tr).1 = some e1 →
      e.lastActivity ≤ e1.lastActivity) := by
  refine ⟨?_, record_noop, ?_⟩
  · intro cfg a now s s1 hr
    rw [register_ok_shape cfg a now s s1 hr]
    refine ⟨{ serviceID := cfg.serviceID, timeoutDuration := cfg.timeoutDuration,
              useRunnerState := cfg.useRunnerState, lastActivity := now,
              action := a, fired := false }, ?_, rfl⟩
    exact lookup_cons_self _ _ _ (by simp)
  · intro busy id tr s t0 e e1 hs hn hm he he1
    have := run_lookup_mono busy id tr s t0 hs hn hm e1 he1
    rw [he] at this
    exact this

end IdleWatcher

namespace LearningCurve

theorem recGet_cons {α : Type} (kv : String × α) (r : List (String × α)) (k : String) :
    recGet (kv :: r) k = if kv.1 == k then some kv.2 else recGet r k := by
  unfold recGet
  rw [List.find?_cons]
  cases h : (kv.1 == k) <;> simp [h]

theorem recGet_append {α : Type} (r1 r2 : List (String × α)) (k : String) :
    recGet (r1 ++ r2) k = orO (recGet r1 k) (recGet r2 k) := by
  induction r1 with
  | nil => simp [recGet, orO]
  | cons kv r1 ih =>
    rw [List.cons_append, recGet_cons, recGet_cons]
    cases h : (kv.1 == k) <;> simp [h, orO, ih]

theorem fold_checkHP_fresh :
    ∀ (kvs : List (String × JsValue)) (cd : List (String × JsValue)) (uq : List String),
      (∀ kv ∈ kvs, recGet cd kv.1 = none) → (kvs.map (fun kv => kv.1)).Nodup →
      kvs.foldl checkHP (cd, uq) =
        (cd ++ kvs.filter (fun kv => isPrimitive kv.2 || isArray kv.2), uq) := by
  intro kvs
  induction kvs with
  | nil =>
    intro cd uq _ _
    simp
  | cons kv kvs ih =>
    intro cd uq hfresh hnd
    simp only [List.map_cons, List.nodup_cons] at hnd
    by_cases hpass : (isPrimitive kv.2 || isArray kv.2) = true
    · have hcd : recGet cd kv.1 = none := hfresh kv (List.mem_cons_self kv kvs)
      have hstep : checkHP (cd, uq) kv = (cd ++ [kv], uq) := by
        simp [checkHP, hpass, hcd]
      have hfresh2 : ∀ kv2 ∈ kvs, recGet (cd ++ [kv]) kv2.1 = none := by
        intro kv2 h2
        rw [recGet_append, hfresh kv2 (List.mem_cons_of_mem kv h2)]
        have hne : (kv.1 == kv2.1) = false := by
          simp only [beq_eq_false_iff_ne]
          intro hcontra
          exact hnd.1 (hcontra ▸ List.mem_map.mpr ⟨kv2, h2, rfl⟩)
        simp [orO, recGet_cons, hne, recGet]
      rw [List.foldl_cons, hstep, ih (cd ++ [kv]) uq hfresh2 hnd.2,
        List.filter_cons_of_pos (by simpa using hpass)]
      simp
    · have hstep : checkHP (cd, uq) kv = (cd, uq) := by
        simp [checkHP, hpass]
      rw [List.foldl_cons, hstep,
        ih cd uq (fun kv2 h2 => hfresh kv2 (List.mem_cons_of_mem kv h2)) hnd.2,
        List.filter_cons_of_neg (by simpa using hpass)]

/-- C8: on a singleton input, `getCustomSearchVaryingHPs` returns exactly the
hyperparameter keys of that trial whose value is a primitive or an array (keys
holding nested dictionaries are excluded), with no uniqueness filtering, and
every returned value is the hyperparameter of type `Constant`. -/
theorem C8_singleton_keeps_all_primitive_or_array_keys
    (d : TrialHParams) (hnd : (d.hparams.map (fun kv => kv.1)).Nodup) :
    getCustomSearchVaryingHPs [d] =
      (d.hparams.filter (fun kv => isPrimitive kv.2 || isArray kv.2)).map
        (fun kv => (kv.1, { type := HyperparameterType.constant })) := by
  unfold getCustomSearchVaryingHPs
  have h1 : ([d].foldl (fun st d => d.hparams.foldl checkHP st) ([], []))
      = d.hparams.foldl checkHP ([], []) := rfl
  rw [h1, fold_checkHP_fresh d.hparams [] [] (fun kv _ => rfl) hnd]
  simp [List.map_map, Function.comp]

/-- Witness for C8 at a concrete trial with a primitive, a dictionary and an
array hyperparameter. -/
theorem C8_witness :
    getCustomSearchVaryingHPs
      [{ id := 1,
         hparams := [("lr", JsValue.num 1),
                     ("cfg", JsValue.dict [("k", JsValue.str "v")]),
                     ("layers", JsValue.arr [JsValue.num 2])],
         metric := none }] =
      (([("lr", JsValue.num 1),
         ("cfg", JsValue.dict [("k", JsValue.str "v")]),
         ("layers", JsValue.arr [JsValue.num 2])].filter
          (fun kv => isPrimitive kv.2 || isArray kv.2)).map
        (fun kv => (kv.1, { type := HyperparameterType.constant }))) :=
  C8_singleton_keeps_all_primitive_or_array_keys
    { id := 1,
      hparams := [("lr", JsValue.num 1),
                  ("cfg", JsValue.dict [("k", JsValue.str "v")]),
                  ("layers", JsValue.arr [JsValue.num 2])],
      metric := none }
    (by decide)

theorem orO_none_right {α : Type} (x : Option α) : orO x none = x := by
  cases x <;> rfl

theorem orO_assoc {α : Type} (a b c : Option α) :
    orO (orO a b) c = orO a (orO b c) := by
  cases a <;> rfl

theorem head?_append {α : Type} (xs ys : List α) :
    (xs ++ ys).head? = orO xs.head? ys.head? := by
  cases xs <;> simp [orO]

theorem hasDiff_append (o : Option JsValue) (xs ys : List JsValue) :
    hasDiff o (xs ++ ys) = (hasDiff o xs || hasDiff (orO o xs.head?) ys) := by
  induction xs generalizing o with
  | nil => simp [hasDiff, orO_none_right]
  | cons v xs ih =>
    cases o with
    | none =>
      have h1 : hasDiff none ((v :: xs) ++ ys) = hasDiff (some v) (xs ++ ys) := rfl
      rw [h1, ih (some v)]
      have h2 : (v :: xs).head? = some v := rfl
      rw [h2]
      have h3 : orO none (some v) = some v := rfl
      rw [h3]
      have h4 : hasDiff none (v :: xs) = hasDiff (some v) xs := rfl
      rw [h4]
      have h5 : orO (some v) xs.head? = some v := rfl
      rw [h5]
    | some v0 =>
      have h1 : hasDiff (some v0) ((v :: xs) ++ ys)
          = (!(JsValue.eqv v0 v) || hasDiff (some v0) (xs ++ ys)) := rfl
      rw [h1, ih (some v0)]
      have h2 : (v :: xs).head? = some v := rfl
      rw [h2]
      have h3 : orO (some v0) (some v) = some v0 := rfl
      rw [h3]
      have h4 : hasDiff (some v0) (v :: xs)
          = (!(JsValue.eqv v0 v) || hasDiff (some v0) xs) := rfl
      rw [h4, Bool.or_assoc]
      have h5 : orO (some v0) xs.head? = some v0 := rfl
      rw [h5]

theorem fold_checkHP_spec (key : String) :
    ∀ (kvs : List (String × JsValue)) (cd : List (String × JsValue)) (uq : List String),
      recGet (kvs.foldl checkHP (cd, uq)).1 key
          = orO (recGet cd key) (passVals key kvs).head? ∧
      (key ∈ (kvs.foldl checkHP (cd, uq)).2 ↔
        key ∈ uq ∨ hasDiff (recGet cd key) (passVals key kvs) = true) := by
  intro kvs
  induction kvs with
  | nil =>
    intro cd uq
    constructor
    · simp [passVals, orO_none_right]
    · simp [passVals, hasDiff]
  | cons kv kvs ih =>
    intro cd uq
    by_cases hpass : (isPrimitive kv.2 || isArray kv.2) = true
    · by_cases hkey : (kv.1 == key) = true
      · have hkey2 : kv.1 = key := by simpa using hkey
        have hpv : passVals key (kv :: kvs) = kv.2 :: passVals key kvs := by
          simp [passVals, List.filter_cons, hkey, hpass]
        cases hcd : recGet cd key with
        | none =>
          have hstep : checkHP (cd, uq) kv = (cd ++ [kv], uq) := by
            simp [checkHP, hpass, hkey2, hcd]
          have hcd2 : recGet (cd ++ [kv]) key = some kv.2 := by
            rw [recGet_append, hcd]
            simp [orO, recGet_cons, hkey]
          obtain ⟨ih1, ih2⟩ := ih (cd ++ [kv]) uq
          rw [List.foldl_cons, hstep]
          constructor
          · rw [ih1, hcd2, hpv]
            simp [orO]
          · rw [ih2, hcd2, hpv]
            rfl
        | some v0 =>
          by_cases heq : JsValue.eqv v0 kv.2 = true
          · have hstep : checkHP (cd, uq) kv = (cd, uq) := by
              simp [checkHP, hpass, hkey2, hcd, heq]
            obtain ⟨ih1, ih2⟩ := ih cd uq
            rw [List.foldl_cons, hstep]
            constructor
            · rw [ih1, hcd, hpv]
              simp [orO]
            · rw [ih2, hcd, hpv]
              simp only [hasDiff, heq, Bool.not_true, Bool.false_or]
          · have hstep : checkHP (cd, uq) kv
                = (cd, if uq.contains key = true then uq else uq ++ [key]) := by
              simp [checkHP, hpass, hkey2, hcd, heq]
            obtain ⟨ih1, ih2⟩ := ih cd (if uq.contains key = true then uq else uq ++ [key])
            rw [List.foldl_cons, hstep]
            have hkuq : key ∈ (if uq.contains key = true then uq else uq ++ [key]) := by
              by_cases h : key ∈ uq
              · simp [h]
              · simp [h]
            constructor
            · rw [ih1, hcd, hpv]
              simp [orO]
            · rw [ih2, hcd, hpv]
              constructor
              · intro _
                right
                simp [hasDiff, heq]
              · intro _
                exact Or.inl hkuq
      · have hpv : passVals key (kv :: kvs) = passVals key kvs := by
          simp [passVals, List.filter_cons, hkey]
        have hkne : kv.1 ≠ key := by simpa using hkey
        have hget : recGet (checkHP (cd, uq) kv).1 key = recGet cd key := by
          unfold checkHP
          simp only [hpass, Bool.not_true, Bool.false_eq_true, if_false]
          cases hc : recGet cd kv.1 with
          | none =>
            simp [recGet_append, recGet_cons, hkey, recGet, orO_none_right]
          | some v0 =>
            by_cases heq : JsValue.eqv v0 kv.2 = true <;> simp [heq]
        have huq : key ∈ (checkHP (cd, uq) kv).2 ↔ key ∈ uq := by
          unfold checkHP
          simp only [hpass, Bool.not_true, Bool.false_eq_true, if_false]
          cases hc : recGet cd kv.1 with
          | none => simp
          | some v0 =>
            by_cases heq : JsValue.eqv v0 kv.2 = true
            · simp [heq]
            · by_cases hcon : kv.1 ∈ uq
              · simp [heq, hcon]
              · simp [heq, hcon, List.mem_append, Ne.symm hkne]
        obtain ⟨ih1, ih2⟩ := ih (checkHP (cd, uq) kv).1 (checkHP (cd, uq) kv).2
        rw [List.foldl_cons]
        constructor
        · rw [hpv, ← hget]
          exact ih1
        · rw [hpv, ← hget, ← huq]
          exact ih2
    · have hpv : passVals key (kv :: kvs) = passVals key kvs := by
        simp [passVals, List.filter_cons, hpass]
      have hstep : checkHP (cd, uq) kv = (cd, uq) := by
        simp [checkHP, hpass]
      obtain ⟨ih1, ih2⟩ := ih cd uq
      rw [List.foldl_cons, hstep, hpv]
      exact ⟨ih1, ih2⟩

theorem fold_trials_spec (key : String) :
    ∀ (ds : List TrialHParams) (cd : List (String × JsValue)) (uq : List String),
      recGet (ds.foldl (fun st d => d.hparams.foldl checkHP st) (cd, uq)).1 key
          = orO (recGet cd key) (occs key ds).head? ∧
      (key ∈ (ds.foldl (fun st d => d.hparams.foldl checkHP st) (cd, uq)).2 ↔
        key ∈ uq ∨ hasDiff (recGet cd key) (occs key ds) = true) := by
  intro ds
  induction ds with
  | nil =>
    intro cd uq
    constructor
    · simp [occs, orO_none_right]
    · simp [occs, hasDiff]
  | cons d ds ih =>
    intro cd uq
    obtain ⟨in1, in2⟩ := fold_checkHP_spec key d.hparams cd uq
    obtain ⟨ih1, ih2⟩ :=
      ih (d.hparams.foldl checkHP (cd, uq)).1 (d.hparams.foldl checkHP (cd, uq)).2
    rw [List.foldl_cons]
    constructor
    · rw [ih1, in1, orO_assoc, ← head?_append]
      rfl
    · rw [ih2, in2, in1]
      simp only [occs, hasDiff_append, Bool.or_eq_true]
      tauto

theorem hasDiff_some_iff (v0 : JsValue) (vs : List JsValue) :
    hasDiff (some v0) vs = true ↔ ∃ v ∈ vs, JsValue.eqv v0 v = false := by
  induction vs with
  | nil => simp [hasDiff]
  | cons v vs ih =>
    simp only [hasDiff, Bool.or_eq_true, Bool.not_eq_true', ih]
    constructor
    · rintro (h | ⟨x, hx, hxe⟩)
      · exact ⟨v, List.mem_cons_self v vs, h⟩
      · exact ⟨x, List.mem_cons_of_mem v hx, hxe⟩
    · rintro ⟨x, hx, hxe⟩
      rcases List.mem_cons.mp hx with rfl | hx2
      · exact Or.inl hxe
      · exact Or.inr ⟨x, hx2, hxe⟩

/-- C9: with two or more trials, `getCustomSearchVaryingHPs` includes a key in
its result exactly when, among that key's occurrences whose values are
primitives or arrays (occurrences holding nested dictionaries are ignored),
some occurrence is not deep-equal to the first recorded one. -/
theorem C9_multi_trial_keeps_exactly_varying_keys
    (trialHps : List TrialHParams) (key : String) (h2 : 2 ≤ trialHps.length) :
    key ∈ (getCustomSearchVaryingHPs trialHps).map (fun kv => kv.1) ↔
      ∃ v0 vs, occs key trialHps = v0 :: vs ∧ ∃ v ∈ vs, JsValue.eqv v0 v = false := by
  unfold getCustomSearchVaryingHPs
  have hlen : (trialHps.length == 1) = false := by
    simp only [beq_eq_false_iff_ne]
    omega
  obtain ⟨_, hspec⟩ := fold_trials_spec key trialHps [] []
  simp only [hlen, Bool.false_eq_true, if_false, List.map_map]
  have hmem : key ∈ (trialHps.foldl (fun st d => d.hparams.foldl checkHP st) ([], [])).2.map
      (((fun (kv : String × Hyperparameter) => kv.1) ∘
        fun k => (k, { type := HyperparameterType.constant }))) ↔
      key ∈ (trialHps.foldl (fun st d => d.hparams.foldl checkHP st) ([], [])).2 := by
    simp
  rw [hmem, hspec]
  have hnil : recGet ([] : List (String × JsValue)) key = none := rfl
  rw [hnil]
  simp only [List.not_mem_nil, false_or]
  cases hoc : occs key trialHps with
  | nil => simp [hasDiff]
  | cons v0 vs =>
    have : hasDiff none (v0 :: vs) = hasDiff (some v0) vs := rfl
    rw [this, hasDiff_some_iff]
    constructor
    · intro h
      exact ⟨v0, vs, rfl, h⟩
    · rintro ⟨w0, ws, hw, hx⟩
      cases hw
      exact hx

/-- Witness for C9 at a concrete input: two trials whose `"lr"` value differs. -/
theorem C9_witness :
    "lr" ∈ (getCustomSearchVaryingHPs
        [{ id := 1, hparams := [("lr", JsValue.num 1)], metric := none },
         { id := 2, hparams := [("lr", JsValue.num 2)], metric := none }]).map
          (fun kv => kv.1) ↔
      ∃ v0 vs, occs "lr"
          [{ id := 1, hparams := [("lr", JsValue.num 1)], metric := none },
           { id := 2, hparams := [("lr", JsValue.num 2)], metric := none }] = v0 :: vs ∧
        ∃ v ∈ vs, JsValue.eqv v0 v = false :=
  C9_multi_trial_keeps_exactly_varying_keys
    [{ id := 1, hparams := [("lr", JsValue.num 1)], metric := none },
     { id := 2, hparams := [("lr", JsValue.num 2)], metric := none }]
    "lr" (by decide)

theorem recGet_recSet_self {α : Type} (r : List (String × α)) (k : String) (v : α) :
    recGet (recSet r k v) k = some v := by
  induction r with
  | nil => simp [recSet, recGet_cons]
  | cons kv r ih =>
    unfold recSet
    by_cases h : (kv.1 == k) = true
    · simp [h, recGet_cons]
    · simp only [h, Bool.false_eq_true, if_false]
      rw [recGet_cons]
      simp [h, ih]

theorem recGet_recSet_ne {α : Type} {k2 k : String} (h : k2 ≠ k)
    (r : List (String × α)) (v : α) :
    recGet (recSet r k2 v) k = recGet r k := by
  have hk : (k2 == k) = false := by simpa using h
  induction r with
  | nil => simp [recSet, recGet_cons, hk, recGet]
  | cons kv r ih =>
    unfold recSet
    by_cases hh : (kv.1 == k2) = true
    · have hkv : kv.1 = k2 := by simpa using hh
      rw [if_pos hh, recGet_cons, recGet_cons]
      simp [hk, hkv]
    · simp only [hh, Bool.false_eq_true, if_false]
      rw [recGet_cons, recGet_cons]
      cases hkk : (kv.1 == k) <;> simp [hkk, ih]

theorem getD_ensureKey (r : List (String × List Pt)) (k : String) :
    (recGet (ensureKey r k) k).getD [] = (recGet r k).getD [] := by
  unfold ensureKey
  cases h : recGet r k with
  | none => simp [h, recGet_recSet_self]
  | some l => simp [h]

theorem recGet_ensureKey_ne {k2 k : String} (h : k2 ≠ k)
    (r : List (String × List Pt)) :
    recGet (ensureKey r k2) k = recGet r k := by
  unfold ensureKey
  cases hr : recGet r k2 with
  | none => simp [recGet_recSet_ne h]
  | some l => simp

theorem getD_pushKey (r : List (String × List Pt)) (k : String) (pt : Pt) :
    (recGet (pushKey r k pt) k).getD [] = (recGet r k).getD [] ++ [pt] := by
  unfold pushKey
  rw [recGet_recSet_self]
  rfl

theorem recGet_pushKey_ne {k2 k : String} (h : k2 ≠ k)
    (r : List (String × List Pt)) (pt : Pt) :
    recGet (pushKey r k2 pt) k = recGet r k := by
  unfold pushKey
  rw [recGet_recSet_ne h]

theorem processMetric_frame (dateToSec : String → Int) (g : String) (dp : DataPoint)
    (maps : RawMaps) (metric : Metric) (k : String) (hne : metricToKey metric ≠ k) :
    recGet (processMetric dateToSec g dp maps metric).values k = recGet maps.values k ∧
    recGet (processMetric dateToSec g dp maps metric).times k = recGet maps.times k ∧
    recGet (processMetric dateToSec g dp maps metric).epochs k = recGet maps.epochs k := by
  unfold processMetric
  by_cases hg : (g != metric.group) = true
  · simp [hg]
  · simp only [hg, Bool.false_eq_true, if_false]
    by_cases hkeep : keepVal (jsGet dp.values metric.name) = true
    · cases ht : dp.time with
      | some t =>
        by_cases hts : (t != "") = true
        · cases he : dp.epoch with
          | some ep =>
            simp [hkeep, hts, recGet_pushKey_ne hne, recGet_ensureKey_ne hne]
          | none =>
            simp [hkeep, hts, recGet_pushKey_ne hne, recGet_ensureKey_ne hne]
        · cases he : dp.epoch with
          | some ep =>
            simp [hkeep, hts, recGet_pushKey_ne hne, recGet_ensureKey_ne hne]
          | none =>
            simp [hkeep, hts, recGet_pushKey_ne hne, recGet_ensureKey_ne hne]
      | none =>
        cases he : dp.epoch with
        | some ep =>
          simp [hkeep, recGet_pushKey_ne hne, recGet_ensureKey_ne hne]
        | none =>
          simp [hkeep, recGet_pushKey_ne hne, recGet_ensureKey_ne hne]
    · simp [hkeep, recGet_ensureKey_ne hne]

theorem processMetric_self (dateToSec : String → Int) (g : String) (dp : DataPoint)
    (maps : RawMaps) (m : Metric) :
    ((recGet (processMetric dateToSec g dp maps m).values (metricToKey m)).getD []
        = (recGet maps.values (metricToKey m)).getD [] ++ deltaB g dp m) ∧
    ((recGet (processMetric dateToSec g dp maps m).times (metricToKey m)).getD []
        = (recGet maps.times (metricToKey m)).getD [] ++ deltaT dateToSec g dp m) ∧
    ((recGet (processMetric dateToSec g dp maps m).epochs (metricToKey m)).getD []
        = (recGet maps.epochs (metricToKey m)).getD [] ++ deltaE g dp m) := by
  unfold processMetric deltaB deltaT deltaE
  by_cases hg : (g == m.group) = true
  · have hg2 : (g != m.group) = false := by
      simp only [bne]
      rw [hg]
      rfl
    simp only [hg2, Bool.false_eq_true, if_false, hg, if_true]
    by_cases hkeep : keepVal (jsGet dp.values m.name) = true
    · cases ht : dp.time with
      | some t =>
        by_cases hts : (t != "") = true
        · cases he : dp.epoch with
          | some ep =>
            simp [hkeep, hts, getD_pushKey, getD_ensureKey]
          | none =>
            simp [hkeep, hts, getD_pushKey, getD_ensureKey]
        · cases he : dp.epoch with
          | some ep =>
            simp [hkeep, hts, getD_pushKey, getD_ensureKey]
          | none =>
            simp [hkeep, hts, getD_pushKey, getD_ensureKey]
      | none =>
        cases he : dp.epoch with
        | some ep =>
          simp [hkeep, getD_pushKey, getD_ensureKey]
        | none =>
          simp [hkeep, getD_pushKey, getD_ensureKey]
    · simp [hkeep, getD_ensureKey]
  · have hg2 : (g != m.group) = true := by
      simp only [bne]
      simp only [Bool.not_eq_true] at hg
      rw [hg]
      rfl
    simp [hg2, hg]

theorem selFold_frame (dateToSec : String → Int) (g : String) (dp : DataPoint)
    (k : String) :
    ∀ (sel : List Metric) (maps : RawMaps), (∀ m2 ∈ sel, metricToKey m2 ≠ k) →
      recGet (sel.foldl (fun maps metric => processMetric dateToSec g dp maps metric)
          maps).values k = recGet maps.values k ∧
      recGet (sel.foldl (fun maps metric => processMetric dateToSec g dp maps metric)
          maps).times k = recGet maps.times k ∧
      recGet (sel.foldl (fun maps metric => processMetric dateToSec g dp maps metric)
          maps).epochs k = recGet maps.epochs k := by
  intro sel
  induction sel with
  | nil =>
    intro maps _
    exact ⟨rfl, rfl, rfl⟩
  | cons m2 rest ih =>
    intro maps hne
    obtain ⟨f1, f2, f3⟩ := processMetric_frame dateToSec g dp maps m2 k
      (hne m2 (List.mem_cons_self m2 rest))
    obtain ⟨i1, i2, i3⟩ := ih (processMetric dateToSec g dp maps m2)
      (fun m3 h3 => hne m3 (List.mem_cons_of_mem m2 h3))
    rw [List.foldl_cons]
    exact ⟨i1.trans f1, i2.trans f2, i3.trans f3⟩

theorem selFold_self (dateToSec : String → Int) (g : String) (dp : DataPoint)
    (m : Metric) :
    ∀ (sel : List Metric) (maps : RawMaps),
      (sel.map metricToKey).Nodup → m ∈ sel →
      ((recGet (sel.foldl (fun maps metric => processMetric dateToSec g dp maps metric)
          maps).values (metricToKey m)).getD []
        = (recGet maps.values (metricToKey m)).getD [] ++ deltaB g dp m) ∧
      ((recGet (sel.foldl (fun maps metric => processMetric dateToSec g dp maps metric)
          maps).times (metricToKey m)).getD []
        = (recGet maps.times (metricToKey m)).getD [] ++ deltaT dateToSec g dp m) ∧
      ((recGet (sel.foldl (fun maps metric => processMetric dateToSec g dp maps metric)
          maps).epochs (metricToKey m)).getD []
        = (recGet maps.epochs (metricToKey m)).getD [] ++ deltaE g dp m) := by
  intro sel
  induction sel with
  | nil =>
    intro maps _ hm
    cases hm
  | cons m2 rest ih =>
    intro maps hnd hm
    simp only [List.map_cons, List.nodup_cons] at hnd
    rw [List.foldl_cons]
    rcases List.mem_cons.mp hm with rfl | hmem
    · have hrest : ∀ m3 ∈ rest, metricToKey m3 ≠ metricToKey m := by
        intro m3 h3 hc
        exact hnd.1 (hc ▸ List.mem_map.mpr ⟨m3, h3, rfl⟩)
      obtain ⟨s1, s2, s3⟩ := processMetric_self dateToSec g dp maps m
      obtain ⟨f1, f2, f3⟩ := selFold_frame dateToSec g dp (metricToKey m) rest
        (processMetric dateToSec g dp maps m) hrest
      exact ⟨by rw [f1, s1], by rw [f2, s2], by rw [f3, s3]⟩
    · have hne : metricToKey m2 ≠ metricToKey m := by
        intro hc
        exact hnd.1 (hc ▸ List.mem_map.mpr ⟨m, hmem, rfl⟩)
      obtain ⟨f1, f2, f3⟩ := processMetric_frame dateToSec g dp maps m2 (metricToKey m) hne
      obtain ⟨i1, i2, i3⟩ := ih (processMetric dateToSec g dp maps m2) hnd.2 hmem
      exact ⟨by rw [i1, f1], by rw [i2, f2], by rw [i3, f3]⟩

theorem dpsFold_self (dateToSec : String → Int) (g : String) (m : Metric)
    (sel : List Metric) (hnd : (sel.map metricToKey).Nodup) (hm : m ∈ sel) :
    ∀ (dps : List DataPoint) (maps : RawMaps),
      ((recGet (dps.foldl (fun maps avgMetrics =>
          sel.foldl (fun maps metric => processMetric dateToSec g avgMetrics maps metric)
            maps) maps).values (metricToKey m)).getD []
        = (recGet maps.values (metricToKey m)).getD [] ++ dpsBatches g m dps) ∧
      ((recGet (dps.foldl (fun maps avgMetrics =>
          sel.foldl (fun maps metric => processMetric dateToSec g avgMetrics maps metric)
            maps) maps).times (metricToKey m)).getD []
        = (recGet maps.times (metricToKey m)).getD [] ++ dpsTimes dateToSec g m dps) ∧
      ((recGet (dps.foldl (fun maps avgMetrics =>
          sel.foldl (fun maps metric => processMetric dateToSec g avgMetrics maps metric)
            maps) maps).epochs (metricToKey m)).getD []
        = (recGet maps.epochs (metricToKey m)).getD [] ++ dpsEpochs g m dps) := by
  intro dps
  induction dps with
  | nil =>
    intro maps
    simp [dpsBatches, dpsTimes, dpsEpochs]
  | cons dp rest ih =>
    intro maps
    obtain ⟨s1, s2, s3⟩ := selFold_self dateToSec g dp m sel maps hnd hm
    obtain ⟨i1, i2, i3⟩ := ih (sel.foldl
      (fun maps metric => processMetric dateToSec g dp maps metric) maps)
    rw [List.foldl_cons]
    refine ⟨?_, ?_, ?_⟩
    · rw [i1, s1, dpsBatches, List.append_assoc]
    · rw [i2, s2, dpsTimes, List.append_assoc]
    · rw [i3, s3, dpsEpochs, List.append_assoc]

theorem dpsBatches_eq_filterMap (g : String) (m : Metric) (dps : List DataPoint) :
    dpsBatches g m dps =
      (if (g == m.group) = true then dps else []).filterMap (fun dp =>
        if keepVal (jsGet dp.values m.name) then
          some (dp.batches, jsGet dp.values m.name)
        else none) := by
  by_cases hg : (g == m.group) = true
  · simp only [hg, if_true]
    induction dps with
    | nil => rfl
    | cons dp rest ih =>
      rw [dpsBatches, ih, List.filterMap_cons]
      by_cases hkeep : keepVal (jsGet dp.values m.name) = true <;>
        simp [deltaB, hg, hkeep]
  · simp only [hg, Bool.false_eq_true, if_false, List.filterMap_nil]
    induction dps with
    | nil => rfl
    | cons dp rest ih =>
      rw [dpsBatches, ih]
      simp [deltaB, hg]

theorem dpsTimes_eq_filterMap (dateToSec : String → Int) (g : String) (m : Metric)
    (dps : List DataPoint) :
    dpsTimes dateToSec g m dps =
      (if (g == m.group) = true then dps else []).filterMap (fun dp =>
        match dp.time with
        | some t =>
          if keepVal (jsGet dp.values m.name) && t != "" then
            some (dateToSec t, jsGet dp.values m.name)
          else none
        | none => none) := by
  by_cases hg : (g == m.group) = true
  · simp only [hg, if_true]
    induction dps with
    | nil => rfl
    | cons dp rest ih =>
      rw [dpsTimes, ih, List.filterMap_cons]
      cases ht : dp.time with
      | some t =>
        by_cases hkeep : keepVal (jsGet dp.values m.name) = true
        · by_cases hts : (t != "") = true <;> simp [deltaT, hg, hkeep, hts, ht]
        · simp [deltaT, hg, hkeep, ht]
      | none =>
        by_cases hkeep : keepVal (jsGet dp.values m.name) = true <;>
          simp [deltaT, hg, hkeep, ht]
  · simp only [hg, Bool.false_eq_true, if_false, List.filterMap_nil]
    induction dps with
    | nil => rfl
    | cons dp rest ih =>
      rw [dpsTimes, ih]
      simp [deltaT, hg]

theorem dpsEpochs_eq_filterMap (g : String) (m : Metric) (dps : List DataPoint) :
    dpsEpochs g m dps =
      (if (g == m.group) = true then dps else []).filterMap (fun dp =>
        match dp.epoch with
        | some ep =>
          if keepVal (jsGet dp.values m.name) then some (ep, jsGet dp.values m.name)
          else none
        | none => none) := by
  by_cases hg : (g == m.group) = true
  · simp only [hg, if_true]
    induction dps with
    | nil => rfl
    | cons dp rest ih =>
      rw [dpsEpochs, ih, List.filterMap_cons]
      cases he : dp.epoch with
      | some ep =>
        by_cases hkeep : keepVal (jsGet dp.values m.name) = true <;>
          simp [deltaE, hg, hkeep, he]
      | none =>
        by_cases hkeep : keepVal (jsGet dp.values m.name) = true <;>
          simp [deltaE, hg, hkeep, he]
  · simp only [hg, Bool.false_eq_true, if_false, List.filterMap_nil]
    induction dps with
    | nil => rfl
    | cons dp rest ih =>
      rw [dpsEpochs, ih]
      simp [deltaE, hg]

theorem matchingData_cons (c : MetricContainer) (cs : List MetricContainer)
    (m : Metric) :
    matchingData (c :: cs) m
      = (if (c.group == m.group) = true then c.data else []) ++ matchingData cs m := rfl

theorem collectBatches_cons (c : MetricContainer) (cs : List MetricContainer)
    (m : Metric) :
    collectBatches (c :: cs) m = dpsBatches c.group m c.data ++ collectBatches cs m := by
  unfold collectBatches
  rw [matchingData_cons, List.filterMap_append, dpsBatches_eq_filterMap]

theorem collectTimes_cons (dateToSec : String → Int) (c : MetricContainer)
    (cs : List MetricContainer) (m : Metric) :
    collectTimes dateToSec (c :: cs) m
      = dpsTimes dateToSec c.group m c.data ++ collectTimes dateToSec cs m := by
  unfold collectTimes
  rw [matchingData_cons, List.filterMap_append, dpsTimes_eq_filterMap]

theorem collectEpochs_cons (c : MetricContainer) (cs : List MetricContainer)
    (m : Metric) :
    collectEpochs (c :: cs) m = dpsEpochs c.group m c.data ++ collectEpochs cs m := by
  unfold collectEpochs
  rw [matchingData_cons, List.filterMap_append, dpsEpochs_eq_filterMap]

theorem contFold_self (dateToSec : String → Int) (m : Metric)
    (sel : List Metric) (hnd : (sel.map metricToKey).Nodup) (hm : m ∈ sel) :
    ∀ (containers : List MetricContainer) (maps : RawMaps),
      ((recGet (containers.foldl (fun maps summMetric =>
          summMetric.data.foldl (fun maps avgMetrics =>
            sel.foldl (fun maps metric =>
              processMetric dateToSec summMetric.group avgMetrics maps metric) maps)
            maps) maps).values (metricToKey m)).getD []
        = (recGet maps.values (metricToKey m)).getD [] ++ collectBatches containers m) ∧
      ((recGet (containers.foldl (fun maps summMetric =>
          summMetric.data.foldl (fun maps avgMetrics =>
            sel.foldl (fun maps metric =>
              processMetric dateToSec summMetric.group avgMetrics maps metric) maps)
            maps) maps).times (metricToKey m)).getD []
        = (recGet maps.times (metricToKey m)).getD []
            ++ collectTimes dateToSec containers m) ∧
      ((recGet (containers.foldl (fun maps summMetric =>
          summMetric.data.foldl (fun maps avgMetrics =>
            sel.foldl (fun maps metric =>
              processMetric dateToSec summMetric.group avgMetrics maps metric) maps)
            maps) maps).epochs (metricToKey m)).getD []
        = (recGet maps.epochs (metricToKey m)).getD [] ++ collectEpochs containers m) := by
  intro containers
  induction containers with
  | nil =>
    intro maps
    simp [collectBatches, collectTimes, collectEpochs, matchingData]
  | cons c cs ih =>
    intro maps
    obtain ⟨d1, d2, d3⟩ := dpsFold_self dateToSec c.group m sel hnd hm c.data maps
    obtain ⟨i1, i2, i3⟩ := ih (c.data.foldl (fun maps avgMetrics =>
      sel.foldl (fun maps metric =>
        processMetric dateToSec c.group avgMetrics maps metric) maps) maps)
    rw [List.foldl_cons]
    refine ⟨?_, ?_, ?_⟩
    · rw [i1, d1, collectBatches_cons, List.append_assoc]
    · rw [i2, d2, collectTimes_cons, List.append_assoc]
    · rw [i3, d3, collectEpochs_cons, List.append_assoc]

theorem foldl_recSet_serie_frame {α : Type} (f : Metric → α) (k : String) :
    ∀ (sel : List Metric) (td : List (String × α)),
      (∀ m2 ∈ sel, metricToKey m2 ≠ k) →
      recGet (sel.foldl (fun td metric => recSet td (metricToKey metric) (f metric)) td) k
        = recGet td k := by
  intro sel
  induction sel with
  | nil =>
    intro td _
    rfl
  | cons m2 rest ih =>
    intro td hne
    rw [List.foldl_cons,
      ih (recSet td (metricToKey m2) (f m2))
        (fun m3 h3 => hne m3 (List.mem_cons_of_mem m2 h3)),
      recGet_recSet_ne (hne m2 (List.mem_cons_self m2 rest))]

theorem foldl_recSet_serie_lookup {α : Type} (f : Metric → α) (m : Metric) :
    ∀ (sel : List Metric) (td : List (String × α)),
      (sel.map metricToKey).Nodup → m ∈ sel →
      recGet (sel.foldl (fun td metric => recSet td (metricToKey metric) (f metric)) td)
          (metricToKey m) = some (f m) := by
  intro sel
  induction sel with
  | nil =>
    intro td _ hm
    cases hm
  | cons m2 rest ih =>
    intro td hnd hm
    simp only [List.map_cons, List.nodup_cons] at hnd
    rw [List.foldl_cons]
    rcases List.mem_cons.mp hm with rfl | hmem
    · have hrest : ∀ m3 ∈ rest, metricToKey m3 ≠ metricToKey m := by
        intro m3 h3 hc
        exact hnd.1 (hc ▸ List.mem_map.mpr ⟨m3, h3, rfl⟩)
      rw [foldl_recSet_serie_frame f (metricToKey m) rest _ hrest, recGet_recSet_self]
    · exact ih (recSet td (metricToKey m2) (f m2)) hnd.2 hmem

/-- C10: `summarizedMetricToSeries` keeps a datapoint whose metric value is `0`
and drops every other falsy value (`undefined`, `null`, `NaN`, the empty string,
`false`) from all three series; the time-axis point is added only under a
present (truthy) `time` field and the epoch-axis point only when `epoch` is
defined — the three series of a selected metric are exactly the kept points. -/
theorem C10_zero_kept_other_falsy_dropped
    (dateToSec : String → Int) (containers : List MetricContainer)
    (selectedMetrics : List Metric) (m : Metric)
    (hm : m ∈ selectedMetrics)
    (hnd : (selectedMetrics.map metricToKey).Nodup) :
    (∃ s, recGet (summarizedMetricToSeries dateToSec containers selectedMetrics).data
        (metricToKey m) = some s ∧
      s.dataBatches.getD [] = collectBatches containers m ∧
      s.dataTime.getD [] = collectTimes dateToSec containers m ∧
      s.dataEpochs.getD [] = collectEpochs containers m) ∧
    keepVal (JsMetricValue.num 0) = true ∧
    keepVal JsMetricValue.undefined = false ∧
    keepVal JsMetricValue.null = false ∧
    keepVal JsMetricValue.nan = false ∧
    keepVal (JsMetricValue.str "") = false ∧
    keepVal (JsMetricValue.bool false) = false := by
  refine ⟨?_, by decide, by decide, by decide, by decide, by decide, by decide⟩
  have hdata : (summarizedMetricToSeries dateToSec containers selectedMetrics).data
      = selectedMetrics.foldl
          (fun td metric => recSet td (metricToKey metric)
            (buildSerie (buildRawMaps dateToSec containers selectedMetrics) metric)) []
      := rfl
  rw [hdata,
    foldl_recSet_serie_lookup
      (buildSerie (buildRawMaps dateToSec containers selectedMetrics)) m
      selectedMetrics [] hnd hm]
  obtain ⟨b1, b2, b3⟩ :=
    contFold_self dateToSec m selectedMetrics hnd hm containers ⟨[], [], []⟩
  refine ⟨_, rfl, ?_, ?_, ?_⟩
  · simpa [buildSerie, buildRawMaps] using b1
  · simpa [buildSerie, buildRawMaps] using b2
  · simpa [buildSerie, buildRawMaps] using b3

/-- Witness for C10 at a concrete input: one container with datapoints whose
values are `0`, `NaN`, `undefined`, and a nonzero number with time and epoch. -/
theorem C10_witness :
    (∃ s, recGet (summarizedMetricToSeries (fun _ => 7)
        [{ group := "training",
           data := [{ batches := 1, time := none, epoch := none,
                      values := [("loss", JsMetricValue.num 0)] },
                    { batches := 2, time := none, epoch := none,
                      values := [("loss", JsMetricValue.nan)] },
                    { batches := 3, time := none, epoch := none, values := [] },
                    { batches := 4, time := some "2024-01-01", epoch := some 2,
                      values := [("loss", JsMetricValue.num 5)] }] }]
        [{ group := "training", name := "loss" }]).data
        (metricToKey { group := "training", name := "loss" }) = some s ∧
      s.dataBatches.getD [] = collectBatches
        [{ group := "training",
           data := [{ batches := 1, time := none, epoch := none,
                      values := [("loss", JsMetricValue.num 0)] },
                    { batches := 2, time := none, epoch := none,
                      values := [("loss", JsMetricValue.nan)] },
                    { batches := 3, time := none, epoch := none, values := [] },
                    { batches := 4, time := some "2024-01-01", epoch := some 2,
                      values := [("loss", JsMetricValue.num 5)] }] }]
        { group := "training", name := "loss" } ∧
      s.dataTime.getD [] = collectTimes (fun _ => 7)
        [{ group := "training",
           data := [{ batches := 1, time := none, epoch := none,
                      values := [("loss", JsMetricValue.num 0)] },
                    { batches := 2, time := none, epoch := none,
                      values := [("loss", JsMetricValue.nan)] },
                    { batches := 3, time := none, epoch := none, values := [] },
                    { batches := 4, time := some "2024-01-01", epoch := some 2,
                      values := [("loss", JsMetricValue.num 5)] }] }]
        { group := "training", name := "loss" } ∧
      s.dataEpochs.getD [] = collectEpochs
        [{ group := "training",
           data := [{ batches := 1, time := none, epoch := none,
                      values := [("loss", JsMetricValue.num 0)] },
                    { batches := 2, time := none, epoch := none,
                      values := [("loss", JsMetricValue.nan)] },
                    { batches := 3, time := none, epoch := none, values := [] },
                    { batches := 4, time := some "2024-01-01", epoch := some 2,
                      values := [("loss", JsMetricValue.num 5)] }] }]
        { group := "training", name := "loss" }) ∧
    keepVal (JsMetricValue.num 0) = true ∧
    keepVal JsMetricValue.undefined = false ∧
    keepVal JsMetricValue.null = false ∧
    keepVal JsMetricValue.nan = false ∧
    keepVal (JsMetricValue.str "") = false ∧
    keepVal (JsMetricValue.bool false) = false :=
  C10_zero_kept_other_falsy_dropped (fun _ => 7)
    [{ group := "training",
       data := [{ batches := 1, time := none, epoch := none,
                  values := [("loss", JsMetricValue.num 0)] },
                { batches := 2, time := none, epoch := none,
                  values := [("loss", JsMetricValue.nan)] },
                { batches := 3, time := none, epoch := none, values := [] },
                { batches := 4, time := some "2024-01-01", epoch := some 2,
                  values := [("loss", JsMetricValue.num 5)] }] }]
    [{ group := "training", name := "loss" }]
    { group := "training", name := "loss" }
    (List.mem_cons_self _ _) (by decide)

end LearningCurve
